import Mathlib

/-!
# Verification of the BananaScript lexer and object model

Shallow embedding of the `lexer` package and of the parts of the `object`
package and of the evaluator builtins that the verified claims mention.

The Go lexer holds `input string`, `position`, `readPosition` and `ch`,
with the invariants (established by `New` and preserved by `readChar`)
`readPosition = position + 1` and `ch = input[position]` when `position`
is in range and `ch = 0` otherwise.  The state is therefore represented
by the input (as a list of characters) together with the current
position, with the current and peek characters derived from it.
-/

/-! ## Definitions -/

/-- The NUL character: the Go lexer's end-of-input sentinel byte `0`. -/
def nulChar : Char := Char.ofNat 0

/-- Character at index `i`, or the sentinel 0 byte past the end: mirrors
the Go accesses `l.input[pos]` guarded by `pos >= len(l.input)`. -/
def charAt (s : List Char) (i : Nat) : Char := s.getD i nulChar

/-- Lexer state: `input` is fixed, `pos` is the Go `position` field
(`readPosition` is always `pos + 1`). -/
structure Lexer where
  input : List Char
  pos : Nat
deriving Repr, DecidableEq

/-- The current character `l.ch`. -/
def Lexer.ch (l : Lexer) : Char := charAt l.input l.pos

/-- `peekChar`: the character at `readPosition`, or 0 past the end. -/
def Lexer.peekChar (l : Lexer) : Char := charAt l.input (l.pos + 1)

/-- `readChar`: advance `position` (and `readPosition`) by one. -/
def Lexer.readChar (l : Lexer) : Lexer := { l with pos := l.pos + 1 }

/-- `New(input)`: start at position 0 (the Go constructor calls `readChar`
once, moving `position` to 0 and loading `ch`). -/
def Lexer.new (input : List Char) : Lexer := { input := input, pos := 0 }

/-- Modelled from the spec: the helper `isLetter` is referenced by the
lexer source but its definition is not under `src/`; the spec says
identifiers are a "maximal run of letters". -/
def isLetter (c : Char) : Bool :=
  decide (('a' ≤ c ∧ c ≤ 'z') ∨ ('A' ≤ c ∧ c ≤ 'Z'))

/-- Modelled from the spec: the helper `isDigit` is referenced by the
lexer source but its definition is not under `src/`; the spec says
integer literals are a "maximal run of digits". -/
def isDigit (c : Char) : Bool := decide ('0' ≤ c ∧ c ≤ '9')

/-- `skipWhitespace`: advance while the current character is a space,
tab, newline or carriage return. -/
def skipWhitespace (l : Lexer) : Lexer :=
  if l.ch = ' ' ∨ l.ch = '\t' ∨ l.ch = '\n' ∨ l.ch = '\r' then
    skipWhitespace l.readChar
  else l
termination_by l.input.length - l.pos
decreasing_by
  have hlt : l.pos < l.input.length := by
    by_contra hge
    have hnul : l.ch = nulChar := by
      simp only [Lexer.ch, charAt, List.getD]
      rw [List.get?_eq_none.mpr (Nat.le_of_not_lt hge)]
      rfl
    rcases ‹l.ch = ' ' ∨ l.ch = '\t' ∨ l.ch = '\n' ∨ l.ch = '\r'› with h | h | h | h <;>
      rw [hnul] at h <;> exact absurd h (by decide)
  simp only [Lexer.readChar]
  omega

/-- `skipComment`: advance until end of line or end of input. -/
def skipComment (l : Lexer) : Lexer :=
  if l.ch ≠ '\n' ∧ l.ch ≠ '\r' ∧ l.ch ≠ nulChar then
    skipComment l.readChar
  else l
termination_by l.input.length - l.pos
decreasing_by
  have hlt : l.pos < l.input.length := by
    by_contra hge
    apply ‹l.ch ≠ '\n' ∧ l.ch ≠ '\r' ∧ l.ch ≠ nulChar›.2.2
    simp only [Lexer.ch, charAt, List.getD]
    rw [List.get?_eq_none.mpr (Nat.le_of_not_lt hge)]
    rfl
  simp only [Lexer.readChar]
  omega

/-- Loop of `readIdentifier`: advance while the current character is a
letter. -/
def readIdentLoop (l : Lexer) : Lexer :=
  if isLetter l.ch then readIdentLoop l.readChar else l
termination_by l.input.length - l.pos
decreasing_by
  have hlt : l.pos < l.input.length := by
    by_contra hge
    have hnul : l.ch = nulChar := by
      simp only [Lexer.ch, charAt, List.getD]
      rw [List.get?_eq_none.mpr (Nat.le_of_not_lt hge)]
      rfl
    exact absurd ‹isLetter l.ch = true› (by rw [hnul]; decide)
  simp only [Lexer.readChar]
  omega

/-- `readIdentifier`: scan the letter run and return the source slice
`l.input[position:l.position]` with the advanced state. -/
def readIdentifier (l : Lexer) : List Char × Lexer :=
  ((l.input.drop l.pos).take ((readIdentLoop l).pos - l.pos), readIdentLoop l)

/-- Loop of `readNumber`: advance while the current character is a
digit. -/
def readNumLoop (l : Lexer) : Lexer :=
  if isDigit l.ch then readNumLoop l.readChar else l
termination_by l.input.length - l.pos
decreasing_by
  have hlt : l.pos < l.input.length := by
    by_contra hge
    have hnul : l.ch = nulChar := by
      simp only [Lexer.ch, charAt, List.getD]
      rw [List.get?_eq_none.mpr (Nat.le_of_not_lt hge)]
      rfl
    exact absurd ‹isDigit l.ch = true› (by rw [hnul]; decide)
  simp only [Lexer.readChar]
  omega

/-- `readNumber`: scan the digit run and return the source slice
`l.input[position:l.position]` with the advanced state. -/
def readNumber (l : Lexer) : List Char × Lexer :=
  ((l.input.drop l.pos).take ((readNumLoop l).pos - l.pos), readNumLoop l)

/-- Loop of `readString`.  Each Go iteration starts with `readChar`; a
backslash immediately followed by `"` contributes a literal `"`, a bare
`"` ends the string, and the 0 byte hits `log.Fatalf` — modelled as
`none` (fatal abort).  On success: the accumulated characters and the
state positioned at the closing quote. -/
def readStringLoop (l : Lexer) (acc : List Char) : Option (List Char × Lexer) :=
  if (l.readChar).ch = '\\' ∧ (l.readChar).peekChar = '"' then
    readStringLoop (l.readChar).readChar (acc ++ ['"'])
  else if (l.readChar).ch = '"' then
    some (acc, l.readChar)
  else if (l.readChar).ch = nulChar then
    none
  else
    readStringLoop l.readChar (acc ++ [(l.readChar).ch])
termination_by l.input.length - l.pos
decreasing_by
  · have hlt : l.pos + 2 < l.input.length := by
      by_contra hge
      have hnul : (l.readChar).peekChar = nulChar := by
        simp only [Lexer.peekChar, Lexer.readChar, charAt, List.getD]
        rw [List.get?_eq_none.mpr (by omega)]
        rfl
      rw [‹(l.readChar).ch = '\\' ∧ (l.readChar).peekChar = '"'›.2] at hnul
      exact absurd hnul (by decide)
    simp only [Lexer.readChar]
    omega
  · have hlt : l.pos + 1 < l.input.length := by
      by_contra hge
      apply ‹¬(l.readChar).ch = nulChar›
      simp only [Lexer.ch, Lexer.readChar, charAt, List.getD]
      rw [List.get?_eq_none.mpr (by omega)]
      rfl
    simp only [Lexer.readChar]
    omega

/-- `readString`: called with the lexer positioned at the opening
quote. -/
def readString (l : Lexer) : Option (List Char × Lexer) := readStringLoop l []

/-- Token kinds.  Modelled from the spec: the `token` package is not
under `src/`; the spec's token model lists exactly these kinds. -/
inductive TokenType where
  | ILLEGAL | EOF | IDENT | INT | STRING
  | ASSIGN | PLUS | MINUS | BANG | ASTERISK | SLASH | CARET
  | LT | GT | EQ | NOT_EQ
  | COMMA | SEMICOLON
  | LPAREN | RPAREN | LBRACE | RBRACE | LBRACKET | RBRACKET
  | FUNCTION | LET | TRUE | FALSE | IF | ELSE | RETURN
deriving Repr, DecidableEq

/-- A token: kind plus literal text. -/
structure Token where
  type : TokenType
  literal : List Char
deriving Repr, DecidableEq

/-- `newToken`: a token whose literal is the single character `c`. -/
def newToken (t : TokenType) (c : Char) : Token := ⟨t, [c]⟩

/-- Modelled from the spec: `token.LookUpIdent` is not under `src/`; the
spec's keyword set is `fn let true false if else return`, and
"identifiers are any keyword-lookup miss". -/
def lookUpIdent (s : List Char) : TokenType :=
  if s = "fn".data then .FUNCTION
  else if s = "let".data then .LET
  else if s = "true".data then .TRUE
  else if s = "false".data then .FALSE
  else if s = "if".data then .IF
  else if s = "else".data then .ELSE
  else if s = "return".data then .RETURN
  else .IDENT

/-- `NextToken`: skip whitespace, then dispatch on the current character
exactly as the Go `switch` does (in source order), advancing past the
token.  The `//` comment branch discards the rest of the line and
recurses; the string branch can hit the fatal `log.Fatalf` (`none`). -/
def nextToken (l : Lexer) : Option (Token × Lexer) :=
  if (skipWhitespace l).ch = '=' then
    if (skipWhitespace l).peekChar = '=' then
      some (⟨.EQ, [(skipWhitespace l).ch, ((skipWhitespace l).readChar).ch]⟩,
        ((skipWhitespace l).readChar).readChar)
    else some (newToken .ASSIGN (skipWhitespace l).ch, (skipWhitespace l).readChar)
  else if (skipWhitespace l).ch = '!' then
    if (skipWhitespace l).peekChar = '=' then
      some (⟨.NOT_EQ, [(skipWhitespace l).ch, ((skipWhitespace l).readChar).ch]⟩,
        ((skipWhitespace l).readChar).readChar)
    else some (newToken .BANG (skipWhitespace l).ch, (skipWhitespace l).readChar)
  else if (skipWhitespace l).ch = '/' then
    if (skipWhitespace l).peekChar = '/' then
      nextToken (skipComment (skipWhitespace l))
    else some (newToken .SLASH (skipWhitespace l).ch, (skipWhitespace l).readChar)
  else if (skipWhitespace l).ch = ';' then
    some (newToken .SEMICOLON (skipWhitespace l).ch, (skipWhitespace l).readChar)
  else if (skipWhitespace l).ch = '(' then
    some (newToken .LPAREN (skipWhitespace l).ch, (skipWhitespace l).readChar)
  else if (skipWhitespace l).ch = ')' then
    some (newToken .RPAREN (skipWhitespace l).ch, (skipWhitespace l).readChar)
  else if (skipWhitespace l).ch = ',' then
    some (newToken .COMMA (skipWhitespace l).ch, (skipWhitespace l).readChar)
  else if (skipWhitespace l).ch = '+' then
    some (newToken .PLUS (skipWhitespace l).ch, (skipWhitespace l).readChar)
  else if (skipWhitespace l).ch = '-' then
    some (newToken .MINUS (skipWhitespace l).ch, (skipWhitespace l).readChar)
  else if (skipWhitespace l).ch = '*' then
    some (newToken .ASTERISK (skipWhitespace l).ch, (skipWhitespace l).readChar)
  else if (skipWhitespace l).ch = '^' then
    some (newToken .CARET (skipWhitespace l).ch, (skipWhitespace l).readChar)
  else if (skipWhitespace l).ch = '[' then
    some (newToken .LBRACKET (skipWhitespace l).ch, (skipWhitespace l).readChar)
  else if (skipWhitespace l).ch = ']' then
    some (newToken .RBRACKET (skipWhitespace l).ch, (skipWhitespace l).readChar)
  else if (skipWhitespace l).ch = Char.ofNat 123 then
    some (newToken .LBRACE (skipWhitespace l).ch, (skipWhitespace l).readChar)
  else if (skipWhitespace l).ch = Char.ofNat 125 then
    some (newToken .RBRACE (skipWhitespace l).ch, (skipWhitespace l).readChar)
  else if (skipWhitespace l).ch = '<' then
    some (newToken .LT (skipWhitespace l).ch, (skipWhitespace l).readChar)
  else if (skipWhitespace l).ch = '>' then
    some (newToken .GT (skipWhitespace l).ch, (skipWhitespace l).readChar)
  else if (skipWhitespace l).ch = nulChar then
    some (⟨.EOF, []⟩, (skipWhitespace l).readChar)
  else if (skipWhitespace l).ch = '"' then
    match readString (skipWhitespace l) with
    | none => none
    | some (s, l2) => some (⟨.STRING, s⟩, l2.readChar)
  else if isLetter (skipWhitespace l).ch then
    some (⟨lookUpIdent (readIdentifier (skipWhitespace l)).1,
      (readIdentifier (skipWhitespace l)).1⟩, (readIdentifier (skipWhitespace l)).2)
  else if isDigit (skipWhitespace l).ch then
    some (⟨.INT, (readNumber (skipWhitespace l)).1⟩, (readNumber (skipWhitespace l)).2)
  else
    some (newToken .ILLEGAL (skipWhitespace l).ch, (skipWhitespace l).readChar)
termination_by l.input.length - l.pos
decreasing_by
  have hws_input : ∀ l2 : Lexer, (skipWhitespace l2).input = l2.input := by
    intro l2
    induction l2 using skipWhitespace.induct with
    | case1 l2 hc ih => rw [skipWhitespace, if_pos hc]; simpa using ih
    | case2 l2 hc => rw [skipWhitespace, if_neg hc]
  have hws_pos : ∀ l2 : Lexer, l2.pos ≤ (skipWhitespace l2).pos := by
    intro l2
    induction l2 using skipWhitespace.induct with
    | case1 l2 hc ih =>
      rw [skipWhitespace, if_pos hc]
      have : l2.pos + 1 ≤ (skipWhitespace l2.readChar).pos := by
        simpa [Lexer.readChar] using ih
      omega
    | case2 l2 hc => rw [skipWhitespace, if_neg hc]
  have hsc_pos : ∀ l2 : Lexer, l2.pos ≤ (skipComment l2).pos := by
    intro l2
    induction l2 using skipComment.induct with
    | case1 l2 hc ih =>
      rw [skipComment, if_pos hc]
      have : l2.pos + 1 ≤ (skipComment l2.readChar).pos := by
        simpa [Lexer.readChar] using ih
      omega
    | case2 l2 hc => rw [skipComment, if_neg hc]
  have h1 : (skipWhitespace l).ch = '/' := ‹_›
  have hlt : (skipWhitespace l).pos < l.input.length := by
    by_contra hge
    have : (skipWhitespace l).ch = nulChar := by
      simp only [Lexer.ch, charAt, List.getD]
      rw [List.get?_eq_none.mpr (by rw [hws_input l]; omega)]
      rfl
    rw [h1] at this
    exact absurd this (by decide)
  have hgt : (skipWhitespace l).pos < (skipComment (skipWhitespace l)).pos := by
    rw [skipComment, if_pos ⟨by rw [h1]; decide, by rw [h1]; decide, by rw [h1]; decide⟩]
    have := hsc_pos (skipWhitespace l).readChar
    simp only [Lexer.readChar] at this ⊢
    omega
  have hin : (skipComment (skipWhitespace l)).input = l.input := by
    have : ∀ l2 : Lexer, (skipComment l2).input = l2.input := by
      intro l2
      induction l2 using skipComment.induct with
      | case1 l2 hc ih => rw [skipComment, if_pos hc]; simpa using ih
      | case2 l2 hc => rw [skipComment, if_neg hc]
    rw [this, hws_input]
  have hle := hws_pos l
  rw [hin]
  omega

/-- Fuel-indexed variant of `NextToken` making the self-recursion of the
`//` comment branch explicit: the outer `none` means the recursion depth
budget ran out.  Everything else mirrors `nextToken`; returned results
are wrapped in `some`, the fatal unterminated-string abort is
`some none`. -/
def nextTokenFuel : Nat → Lexer → Option (Option (Token × Lexer))
  | 0, _ => none
  | fuel + 1, l =>
    if (skipWhitespace l).ch = '=' then
      if (skipWhitespace l).peekChar = '=' then
        some (some (⟨.EQ, [(skipWhitespace l).ch, ((skipWhitespace l).readChar).ch]⟩,
          ((skipWhitespace l).readChar).readChar))
      else some (some (newToken .ASSIGN (skipWhitespace l).ch, (skipWhitespace l).readChar))
    else if (skipWhitespace l).ch = '!' then
      if (skipWhitespace l).peekChar = '=' then
        some (some (⟨.NOT_EQ, [(skipWhitespace l).ch, ((skipWhitespace l).readChar).ch]⟩,
          ((skipWhitespace l).readChar).readChar))
      else some (some (newToken .BANG (skipWhitespace l).ch, (skipWhitespace l).readChar))
    else if (skipWhitespace l).ch = '/' then
      if (skipWhitespace l).peekChar = '/' then
        nextTokenFuel fuel (skipComment (skipWhitespace l))
      else some (some (newToken .SLASH (skipWhitespace l).ch, (skipWhitespace l).readChar))
    else if (skipWhitespace l).ch = ';' then
      some (some (newToken .SEMICOLON (skipWhitespace l).ch, (skipWhitespace l).readChar))
    else if (skipWhitespace l).ch = '(' then
      some (some (newToken .LPAREN (skipWhitespace l).ch, (skipWhitespace l).readChar))
    else if (skipWhitespace l).ch = ')' then
      some (some (newToken .RPAREN (skipWhitespace l).ch, (skipWhitespace l).readChar))
    else if (skipWhitespace l).ch = ',' then
      some (some (newToken .COMMA (skipWhitespace l).ch, (skipWhitespace l).readChar))
    else if (skipWhitespace l).ch = '+' then
      some (some (newToken .PLUS (skipWhitespace l).ch, (skipWhitespace l).readChar))
    else if (skipWhitespace l).ch = '-' then
      some (some (newToken .MINUS (skipWhitespace l).ch, (skipWhitespace l).readChar))
    else if (skipWhitespace l).ch = '*' then
      some (some (newToken .ASTERISK (skipWhitespace l).ch, (skipWhitespace l).readChar))
    else if (skipWhitespace l).ch = '^' then
      some (some (newToken .CARET (skipWhitespace l).ch, (skipWhitespace l).readChar))
    else if (skipWhitespace l).ch = '[' then
      some (some (newToken .LBRACKET (skipWhitespace l).ch, (skipWhitespace l).readChar))
    else if (skipWhitespace l).ch = ']' then
      some (some (newToken .RBRACKET (skipWhitespace l).ch, (skipWhitespace l).readChar))
    else if (skipWhitespace l).ch = Char.ofNat 123 then
      some (some (newToken .LBRACE (skipWhitespace l).ch, (skipWhitespace l).readChar))
    else if (skipWhitespace l).ch = Char.ofNat 125 then
      some (some (newToken .RBRACE (skipWhitespace l).ch, (skipWhitespace l).readChar))
    else if (skipWhitespace l).ch = '<' then
      some (some (newToken .LT (skipWhitespace l).ch, (skipWhitespace l).readChar))
    else if (skipWhitespace l).ch = '>' then
      some (some (newToken .GT (skipWhitespace l).ch, (skipWhitespace l).readChar))
    else if (skipWhitespace l).ch = nulChar then
      some (some (⟨.EOF, []⟩, (skipWhitespace l).readChar))
    else if (skipWhitespace l).ch = '"' then
      match readString (skipWhitespace l) with
      | none => some none
      | some (s, l2) => some (some (⟨.STRING, s⟩, l2.readChar))
    else if isLetter (skipWhitespace l).ch then
      some (some (⟨lookUpIdent (readIdentifier (skipWhitespace l)).1,
        (readIdentifier (skipWhitespace l)).1⟩, (readIdentifier (skipWhitespace l)).2))
    else if isDigit (skipWhitespace l).ch then
      some (some (⟨.INT, (readNumber (skipWhitespace l)).1⟩,
        (readNumber (skipWhitespace l)).2))
    else
      some (some (newToken .ILLEGAL (skipWhitespace l).ch, (skipWhitespace l).readChar))

/-- `k + 1` successive calls of `NextToken` from state `l`, returning the
result of the last call (`none` as soon as any call aborts). -/
def nextTokenN : Nat → Lexer → Option (Token × Lexer)
  | 0, l => nextToken l
  | k + 1, l =>
    match nextToken l with
    | none => none
    | some (_, l2) => nextTokenN k l2

/-!
## Object model

From the `object` package source: the runtime value variants and their
`Type()`/`Inspect()` methods.  `Function` and `Builtin` hold AST nodes
and native Go functions and are not needed by any claim; they are
omitted from the variant set here.  A Go `*object.Array` holds a pointer
to its element slice; to make heap (non-)mutation expressible, an
`Array` value carries a reference into an explicit store of element
lists. -/

inductive Obj where
  | Integer (value : Int)
  | String (value : String)
  | Boolean (value : Bool)
  | Null
  | ReturnValue (value : Obj)
  | Error (message : String)
  | Array (ref : Nat)
deriving Repr, DecidableEq

/-- The `ObjectType` constants of the `object` package. -/
def INTEGER_OBJ : String := "INTEGER"
def STRING_OBJ : String := "STRING"
def BOOLEAN_OBJ : String := "BOOLEAN"
def NULL_OBJ : String := "NULL"
def RETURN_VALUE_OBJ : String := "RETURN_VALUE"
def ERROR_OBJ : String := "ERROR"
def ARRAY_OBJ : String := "ARRAY"

/-- The `Type()` method of each object variant. -/
def objType : Obj → String
  | .Integer _ => INTEGER_OBJ
  | .String _ => STRING_OBJ
  | .Boolean _ => BOOLEAN_OBJ
  | .Null => NULL_OBJ
  | .ReturnValue _ => RETURN_VALUE_OBJ
  | .Error _ => ERROR_OBJ
  | .Array _ => ARRAY_OBJ

/-- Elements of the array referenced by `r` in store `st`. -/
def arrElems (st : List (List Obj)) (r : Nat) : List Obj := st.getD r []

/-- The `Inspect()` methods: `%d` decimal for `Integer`, the raw text for
`String`, `%t` for `Boolean`, `"null"`, the wrapped value's rendering
for `ReturnValue`, an `"ERROR: "` prefix for `Error`, and for `Array`
the comma-joined element renderings in brackets.  The Go recursion
follows pointers; the `depth` budget makes it well-founded here (an
acyclic value renders fully once `depth` exceeds its nesting). -/
def inspect (st : List (List Obj)) : Nat → Obj → String
  | _, .Integer v => toString v
  | _, .String s => s
  | _, .Boolean b => if b then "true" else "false"
  | _, .Null => "null"
  | 0, .ReturnValue _ => ""
  | d + 1, .ReturnValue v => inspect st d v
  | _, .Error m => "ERROR: " ++ m
  | 0, .Array _ => ""
  | d + 1, .Array r =>
      "[" ++ String.intercalate ", " ((arrElems st r).map (inspect st d)) ++ "]"

/-- `true` when the value contains no `Array` reference, so that its
rendering never consults the store. -/
def arrayFree : Obj → Bool
  | .Array _ => false
  | .ReturnValue v => arrayFree v
  | _ => true

/-- Modelled from the spec: the evaluator and its builtin registry are
not under `src/`.  Spec §3 and §4.4: "`push` (new Array = operand
Array's elements followed by the new value; operand Array unmodified)" —
a new array is allocated at a fresh reference and the store entry of the
operand is not written. -/
def pushBuiltin (st : List (List Obj)) (r : Nat) (v : Obj) :
    List (List Obj) × Obj :=
  (st ++ [arrElems st r ++ [v]], .Array st.length)

/-- Modelled from the spec: the evaluator is not under `src/`.  Spec
§4.4: "Integer±Integer for arithmetic and ordering comparisons (with
division and modulo by zero producing an Error, not a crash)".  Go
`int64` division truncates toward zero (`Int.tdiv`/`Int.tmod`); 64-bit
wraparound is not modelled since no claim depends on it. -/
def evalIntegerInfix (op : String) (x y : Int) : Obj :=
  if op = "+" then .Integer (x + y)
  else if op = "-" then .Integer (x - y)
  else if op = "*" then .Integer (x * y)
  else if op = "/" then
    if y = 0 then .Error "division by zero" else .Integer (x.tdiv y)
  else if op = "%" then
    if y = 0 then .Error "division by zero" else .Integer (x.tmod y)
  else if op = "<" then .Boolean (decide (x < y))
  else if op = ">" then .Boolean (decide (x > y))
  else if op = "==" then .Boolean (decide (x = y))
  else if op = "!=" then .Boolean (decide (x ≠ y))
  else .Error ("unknown operator: INTEGER " ++ op ++ " INTEGER")

/-- Scanner for the body of a string literal, written from the claim's
words: the text between the delimiting quotes, with each
backslash-escaped quote sequence replaced by a literal quote; returns
the content and the number of input characters consumed up to and
including the closing quote, or `none` when no closing delimiter
exists. -/
def stringLiteralSpec : List Char → Option (List Char × Nat)
  | [] => none
  | c :: rest =>
    if c = '"' then some ([], 1)
    else if c = '\\' ∧ rest.head? = some '"' then
      (stringLiteralSpec rest.tail).map (fun p => ('"' :: p.1, p.2 + 2))
    else (stringLiteralSpec rest).map (fun p => (c :: p.1, p.2 + 1))
termination_by s => s.length
decreasing_by all_goals (simp [List.length_tail]; try omega)

/-! ## Supporting lemmas -/

theorem charAt_of_le (s : List Char) (i : Nat) (h : s.length ≤ i) :
    charAt s i = nulChar := by
  simp only [charAt, List.getD]
  rw [List.get?_eq_none.mpr h]
  rfl

theorem pos_lt_of_ch_ne (l : Lexer) (h : l.ch ≠ nulChar) :
    l.pos < l.input.length := by
  by_contra hge
  exact h (charAt_of_le _ _ (Nat.le_of_not_lt hge))

@[simp] theorem readChar_input (l : Lexer) : (l.readChar).input = l.input := rfl

@[simp] theorem readChar_pos (l : Lexer) : (l.readChar).pos = l.pos + 1 := rfl

@[simp] theorem readChar_ch (l : Lexer) : (l.readChar).ch = l.peekChar := rfl

theorem charAt_drop (s : List Char) (i j : Nat) :
    charAt (s.drop i) j = charAt s (i + j) := by
  simp [charAt, List.getD_eq_getElem?_getD, List.getElem?_drop]

theorem charAt_mem (s : List Char) (i : Nat) (h : i < s.length) :
    charAt s i ∈ s := by
  simp only [charAt, List.getD_eq_getElem?_getD, List.getElem?_eq_getElem h,
    Option.getD_some]
  exact List.getElem_mem h

theorem ch_eq_head (l : Lexer) (c : Char) (rest : List Char)
    (h : l.input.drop l.pos = c :: rest) : l.ch = c := by
  have := charAt_drop l.input l.pos 0
  rw [h] at this
  simpa [Lexer.ch, charAt] using this.symm

theorem drop_succ_of_drop_cons (s : List Char) (i : Nat) (c : Char)
    (rest : List Char) (h : s.drop i = c :: rest) : s.drop (i + 1) = rest := by
  have : (s.drop i).drop 1 = s.drop (i + 1) := List.drop_drop 1 i s
  rw [h] at this
  simpa using this.symm

theorem isLetter_ne_nul (c : Char) (h : isLetter c = true) : c ≠ nulChar := by
  intro hc; subst hc; simp [isLetter, nulChar] at h

@[simp] theorem skipWhitespace_input (l : Lexer) :
    (skipWhitespace l).input = l.input := by
  induction l using skipWhitespace.induct with
  | case1 l h ih => rw [skipWhitespace, if_pos h]; simpa using ih
  | case2 l h => rw [skipWhitespace, if_neg h]

theorem skipWhitespace_pos_le (l : Lexer) : l.pos ≤ (skipWhitespace l).pos := by
  induction l using skipWhitespace.induct with
  | case1 l h ih =>
    rw [skipWhitespace, if_pos h]
    have : l.pos + 1 ≤ (skipWhitespace l.readChar).pos := by simpa using ih
    omega
  | case2 l h => rw [skipWhitespace, if_neg h]

theorem skipWhitespace_eq_self (l : Lexer)
    (h : ¬(l.ch = ' ' ∨ l.ch = '\t' ∨ l.ch = '\n' ∨ l.ch = '\r')) :
    skipWhitespace l = l := by
  rw [skipWhitespace, if_neg h]

@[simp] theorem skipComment_input (l : Lexer) :
    (skipComment l).input = l.input := by
  induction l using skipComment.induct with
  | case1 l h ih => rw [skipComment, if_pos h]; simpa using ih
  | case2 l h => rw [skipComment, if_neg h]

theorem skipComment_pos_le (l : Lexer) : l.pos ≤ (skipComment l).pos := by
  induction l using skipComment.induct with
  | case1 l h ih =>
    rw [skipComment, if_pos h]
    have : l.pos + 1 ≤ (skipComment l.readChar).pos := by simpa using ih
    omega
  | case2 l h => rw [skipComment, if_neg h]

theorem skipComment_stop (l : Lexer) :
    (skipComment l).ch = '\n' ∨ (skipComment l).ch = '\r' ∨
      (skipComment l).ch = nulChar := by
  induction l using skipComment.induct with
  | case1 l h ih => rw [skipComment, if_pos h]; exact ih
  | case2 l h =>
    rw [skipComment, if_neg h]
    push_neg at h
    by_cases h1 : l.ch = '\n'
    · exact Or.inl h1
    by_cases h2 : l.ch = '\r'
    · exact Or.inr (Or.inl h2)
    exact Or.inr (Or.inr (h h1 h2))

theorem skipComment_interval (l : Lexer) :
    ∀ i, l.pos ≤ i → i < (skipComment l).pos →
      charAt l.input i ≠ '\n' ∧ charAt l.input i ≠ '\r' ∧
        charAt l.input i ≠ nulChar := by
  induction l using skipComment.induct with
  | case1 l h ih =>
    intro i hi hi2
    rw [skipComment, if_pos h] at hi2
    rcases Nat.eq_or_lt_of_le hi with rfl | hlt
    · exact h
    · exact ih i (by simpa using hlt) (by simpa using hi2)
  | case2 l h =>
    intro i hi hi2
    rw [skipComment, if_neg h] at hi2
    omega

theorem readIdentLoop_spec (l : Lexer) :
    readIdentLoop l =
      ⟨l.input, l.pos + ((l.input.drop l.pos).takeWhile isLetter).length⟩ := by
  induction l using readIdentLoop.induct with
  | case1 l h ih =>
    rw [readIdentLoop, if_pos h]
    have hne : l.ch ≠ nulChar := isLetter_ne_nul _ h
    have hlt : l.pos < l.input.length := pos_lt_of_ch_ne l hne
    have hdrop : l.input.drop l.pos = l.ch :: l.input.drop (l.pos + 1) := by
      rw [List.drop_eq_getElem_cons hlt]
      congr 1
      simp [Lexer.ch, charAt, List.getD_eq_getElem?_getD, List.getElem?_eq_getElem hlt]
    rw [ih, hdrop, List.takeWhile_cons_of_pos h]
    simp [Lexer.readChar]
    omega
  | case2 l h =>
    rw [readIdentLoop, if_neg h]
    by_cases hlt : l.pos < l.input.length
    · have hdrop : l.input.drop l.pos = l.ch :: l.input.drop (l.pos + 1) := by
        rw [List.drop_eq_getElem_cons hlt]
        congr 1
        simp [Lexer.ch, charAt, List.getD_eq_getElem?_getD, List.getElem?_eq_getElem hlt]
      rw [hdrop, List.takeWhile_cons_of_neg (by simpa using h)]
      simp
    · rw [List.drop_eq_nil_of_le (by omega)]
      simp

theorem readIdentifier_spec (l : Lexer) :
    readIdentifier l = ((l.input.drop l.pos).takeWhile isLetter,
      ⟨l.input, l.pos + ((l.input.drop l.pos).takeWhile isLetter).length⟩) := by
  rw [readIdentifier, readIdentLoop_spec]
  simp only [Nat.add_sub_cancel_left]
  rw [← List.prefix_iff_eq_take.mp (List.takeWhile_prefix isLetter)]

theorem readStringLoop_none : ∀ (n : Nat) (l : Lexer) (acc : List Char),
    l.input.length - l.pos ≤ n →
    (∀ c ∈ l.input.drop (l.pos + 1), c ≠ '"') →
    readStringLoop l acc = none := by
  intro n
  induction n with
  | zero =>
    intro l acc hn hno
    have h1 : (l.readChar).ch = nulChar := by
      show charAt l.input (l.pos + 1) = nulChar
      exact charAt_of_le _ _ (by omega)
    rw [readStringLoop]
    split_ifs with hesc hq
    · rw [h1] at hesc; exact absurd hesc.1 (by decide)
    · rw [h1] at hq; exact absurd hq (by decide)
    · rfl
  | succ n ih =>
    intro l acc hn hno
    rw [readStringLoop]
    split_ifs with hesc hq hnul
    · exfalso
      have hp : charAt l.input (l.pos + 2) = '"' := hesc.2
      have hlt2 : l.pos + 2 < l.input.length := by
        by_contra hge
        rw [charAt_of_le _ _ (by omega)] at hp
        exact absurd hp (by decide)
      have hm : charAt l.input (l.pos + 2) ∈ l.input.drop (l.pos + 1) := by
        have h2 := charAt_mem (l.input.drop (l.pos + 1)) 1
          (by rw [List.length_drop]; omega)
        rwa [charAt_drop] at h2
      exact hno _ hm hp
    · exfalso
      have hp : charAt l.input (l.pos + 1) = '"' := hq
      have hlt2 : l.pos + 1 < l.input.length := by
        by_contra hge
        rw [charAt_of_le _ _ (by omega)] at hp
        exact absurd hp (by decide)
      have hm : charAt l.input (l.pos + 1) ∈ l.input.drop (l.pos + 1) := by
        have h2 := charAt_mem (l.input.drop (l.pos + 1)) 0
          (by rw [List.length_drop]; omega)
        rwa [charAt_drop] at h2
      exact hno _ hm hp
    · rfl
    · apply ih
      · simp only [readChar_input, readChar_pos]; omega
      · intro c hc
        simp only [readChar_input, readChar_pos] at hc
        apply hno
        have hsub : l.input.drop (l.pos + 1 + 1) ⊆ l.input.drop (l.pos + 1) := by
          rw [← List.drop_drop]
          exact List.drop_subset _ _
        exact hsub hc

theorem readStringLoop_spec : ∀ (n : Nat) (l : Lexer) (acc content : List Char),
    stringLiteralSpec (l.input.drop (l.pos + 1)) = some (content, n) →
    nulChar ∉ (l.input.drop (l.pos + 1)).take n →
    readStringLoop l acc = some (acc ++ content, ⟨l.input, l.pos + n⟩) := by
  intro n
  induction n using Nat.strong_induction_on with
  | _ n ih =>
  intro l acc content hspec hnonul
  cases hrest : l.input.drop (l.pos + 1) with
  | nil => rw [hrest] at hspec; simp [stringLiteralSpec] at hspec
  | cons c rest =>
    rw [hrest] at hspec hnonul
    have hch : (l.readChar).ch = c :=
      ch_eq_head l.readChar c rest (by simpa using hrest)
    have hdrop2 : l.input.drop (l.pos + 2) = rest := by
      have := drop_succ_of_drop_cons l.input (l.pos + 1) c rest hrest
      simpa using this
    have hpk : (l.readChar).peekChar = charAt rest 0 := by
      show charAt l.input (l.pos + 1 + 1) = charAt rest 0
      rw [← hdrop2, charAt_drop]
    rw [stringLiteralSpec] at hspec
    split_ifs at hspec with hq hbq
    · -- closing quote immediately
      simp only [Option.some.injEq, Prod.mk.injEq] at hspec
      obtain ⟨rfl, rfl⟩ := hspec
      rw [readStringLoop]
      rw [if_neg, if_pos (by rw [hch, hq])]
      · simp [Lexer.readChar]
      · rw [hch, hq]
        intro hco
        exact absurd hco.1 (by decide)
    · -- escaped quote
      obtain ⟨hc, hhead⟩ := hbq
      cases rest with
      | nil => simp at hhead
      | cons c2 rest2 =>
        simp only [List.head?_cons, Option.some.injEq] at hhead
        subst hhead
        simp only [List.tail_cons, Option.map_eq_some'] at hspec
        obtain ⟨⟨content2, m⟩, hspec2, hpair⟩ := hspec
        simp only [Prod.mk.injEq] at hpair
        obtain ⟨hcont, hn⟩ := hpair
        subst hcont
        rw [readStringLoop, if_pos ⟨by rw [hch, hc], by rw [hpk]; rfl⟩]
        have hdrop3 : l.input.drop (l.pos + 3) = rest2 := by
          have := drop_succ_of_drop_cons l.input (l.pos + 2) '"' rest2 hdrop2
          simpa using this
        have ihres := ih m (by omega) (l.readChar).readChar (acc ++ ['"']) content2
          (by simpa using hdrop3 ▸ hspec2) ?hnn
        case hnn =>
          show nulChar ∉ ((l.readChar.readChar).input.drop ((l.readChar.readChar).pos + 1)).take m
          simp only [readChar_input, readChar_pos]
          have : l.input.drop (l.pos + 1 + 1 + 1) = rest2 := by simpa using hdrop3
          rw [this]
          intro hmem
          apply hnonul
          subst hn
          simp only [List.take_succ_cons]
          exact List.mem_cons_of_mem _ (List.mem_cons_of_mem _ hmem)
        rw [ihres]
        simp only [readChar_input, readChar_pos, List.append_assoc, List.singleton_append]
        subst hn
        have harith : l.pos + 1 + 1 + m = l.pos + (m + 2) := by omega
        rw [harith]
    · -- ordinary character
      simp only [Option.map_eq_some'] at hspec
      obtain ⟨⟨content2, m⟩, hspec2, hpair⟩ := hspec
      simp only [Prod.mk.injEq] at hpair
      obtain ⟨hcont, hn⟩ := hpair
      subst hcont
      have hcnul : c ≠ nulChar := by
        intro hcn
        apply hnonul
        subst hcn hn
        simp [List.take_succ_cons]
      rw [readStringLoop]
      rw [if_neg, if_neg (by rw [hch]; exact hq), if_neg (by rw [hch]; exact hcnul)]
      · have ihres := ih m (by omega) l.readChar (acc ++ [(l.readChar).ch]) content2
          (by simpa [hdrop2] using hspec2) ?hnn2
        case hnn2 =>
          show nulChar ∉ ((l.readChar).input.drop ((l.readChar).pos + 1)).take m
          simp only [readChar_input, readChar_pos]
          have h12 : l.input.drop (l.pos + 1 + 1) = rest := by simpa using hdrop2
          rw [h12]
          intro hmem
          apply hnonul
          subst hn
          simp only [List.take_succ_cons]
          exact List.mem_cons_of_mem _ hmem
        rw [ihres]
        simp only [readChar_input, readChar_pos, hch, List.append_assoc,
          List.singleton_append]
        subst hn
        have harith : l.pos + 1 + m = l.pos + (m + 1) := by omega
        rw [harith]
      · -- escape condition is false
        rw [hch, hpk]
        intro hco
        rcases hco with ⟨hc1, hc2⟩
        apply hbq
        constructor
        · exact hc1
        · cases rest with
          | nil => rw [charAt_of_le _ _ (by simp)] at hc2; exact absurd hc2 (by decide)
          | cons c2 rest2 =>
            have : charAt (c2 :: rest2) 0 = c2 := rfl
            rw [this] at hc2
            simp [hc2]

theorem lookUpIdent_ne_eof (s : List Char) : lookUpIdent s ≠ .EOF := by
  rw [lookUpIdent]
  split_ifs <;> decide

theorem nextToken_past_end (l : Lexer) (h : l.input.length ≤ l.pos) :
    nextToken l = some (⟨.EOF, []⟩, l.readChar) := by
  have hch : l.ch = nulChar := charAt_of_le _ _ h
  have hws : skipWhitespace l = l :=
    skipWhitespace_eq_self l (by rw [hch]; decide)
  have heq := nextToken.eq_def l
  rw [hws, hch] at heq
  simpa [nulChar] using heq

theorem comment_measure (l : Lexer) (h1 : (skipWhitespace l).ch = '/') :
    l.input.length - (skipComment (skipWhitespace l)).pos < l.input.length - l.pos ∧
    (skipComment (skipWhitespace l)).input = l.input := by
  have hne : (skipWhitespace l).ch ≠ nulChar := by rw [h1]; decide
  have hlt : (skipWhitespace l).pos < l.input.length := by
    have := pos_lt_of_ch_ne (skipWhitespace l) hne
    rwa [skipWhitespace_input] at this
  have hle := skipWhitespace_pos_le l
  have hgt : (skipWhitespace l).pos < (skipComment (skipWhitespace l)).pos := by
    rw [skipComment, if_pos ⟨by rw [h1]; decide, by rw [h1]; decide, hne⟩]
    have := skipComment_pos_le (skipWhitespace l).readChar
    simp only [readChar_pos] at this
    omega
  exact ⟨by omega, by rw [skipComment_input, skipWhitespace_input]⟩

theorem eof_inv_aux {tok t : Token} {st l2 : Lexer}
    (h : some (tok, st) = some (t, l2)) (ht : t.type = .EOF)
    (hne : tok.type ≠ .EOF) : False := by
  have h1 : tok = t := congrArg Prod.fst (Option.some.inj h)
  exact hne (h1.symm ▸ ht)

theorem nextToken_eof_inv : ∀ (n : Nat) (l : Lexer) (t : Token) (l2 : Lexer),
    l.input.length - l.pos ≤ n →
    nextToken l = some (t, l2) → t.type = .EOF →
    t = ⟨.EOF, []⟩ ∧ l2.input = l.input ∧
      charAt l.input (l2.pos - 1) = nulChar ∧ 1 ≤ l2.pos := by
  intro n
  induction n using Nat.strong_induction_on with
  | _ n ih =>
  intro l t l2 hn h ht
  rw [nextToken.eq_def] at h
  by_cases hc1 : (skipWhitespace l).ch = '='
  · rw [if_pos hc1] at h
    by_cases hc2 : (skipWhitespace l).peekChar = '='
    · rw [if_pos hc2] at h; exact (eof_inv_aux h ht (by simp [newToken])).elim
    · rw [if_neg hc2] at h; exact (eof_inv_aux h ht (by simp [newToken])).elim
  rw [if_neg hc1] at h
  by_cases hc3 : (skipWhitespace l).ch = '!'
  · rw [if_pos hc3] at h
    by_cases hc4 : (skipWhitespace l).peekChar = '='
    · rw [if_pos hc4] at h; exact (eof_inv_aux h ht (by simp [newToken])).elim
    · rw [if_neg hc4] at h; exact (eof_inv_aux h ht (by simp [newToken])).elim
  rw [if_neg hc3] at h
  by_cases hc5 : (skipWhitespace l).ch = '/'
  · rw [if_pos hc5] at h
    by_cases hc6 : (skipWhitespace l).peekChar = '/'
    · rw [if_pos hc6] at h
      have hm := comment_measure l hc5
      have hres := ih (l.input.length - (skipComment (skipWhitespace l)).pos)
        (by omega) (skipComment (skipWhitespace l)) t l2
        (by rw [hm.2]) h ht
      rw [hm.2] at hres
      exact hres
    · rw [if_neg hc6] at h; exact (eof_inv_aux h ht (by simp [newToken])).elim
  rw [if_neg hc5] at h
  by_cases hc7 : (skipWhitespace l).ch = ';'
  · rw [if_pos hc7] at h; exact (eof_inv_aux h ht (by simp [newToken])).elim
  rw [if_neg hc7] at h
  by_cases hc8 : (skipWhitespace l).ch = '('
  · rw [if_pos hc8] at h; exact (eof_inv_aux h ht (by simp [newToken])).elim
  rw [if_neg hc8] at h
  by_cases hc9 : (skipWhitespace l).ch = ')'
  · rw [if_pos hc9] at h; exact (eof_inv_aux h ht (by simp [newToken])).elim
  rw [if_neg hc9] at h
  by_cases hc10 : (skipWhitespace l).ch = ','
  · rw [if_pos hc10] at h; exact (eof_inv_aux h ht (by simp [newToken])).elim
  rw [if_neg hc10] at h
  by_cases hc11 : (skipWhitespace l).ch = '+'
  · rw [if_pos hc11] at h; exact (eof_inv_aux h ht (by simp [newToken])).elim
  rw [if_neg hc11] at h
  by_cases hc12 : (skipWhitespace l).ch = '-'
  · rw [if_pos hc12] at h; exact (eof_inv_aux h ht (by simp [newToken])).elim
  rw [if_neg hc12] at h
  by_cases hc13 : (skipWhitespace l).ch = '*'
  · rw [if_pos hc13] at h; exact (eof_inv_aux h ht (by simp [newToken])).elim
  rw [if_neg hc13] at h
  by_cases hc14 : (skipWhitespace l).ch = '^'
  · rw [if_pos hc14] at h; exact (eof_inv_aux h ht (by simp [newToken])).elim
  rw [if_neg hc14] at h
  by_cases hc15 : (skipWhitespace l).ch = '['
  · rw [if_pos hc15] at h; exact (eof_inv_aux h ht (by simp [newToken])).elim
  rw [if_neg hc15] at h
  by_cases hc16 : (skipWhitespace l).ch = ']'
  · rw [if_pos hc16] at h; exact (eof_inv_aux h ht (by simp [newToken])).elim
  rw [if_neg hc16] at h
  by_cases hc17 : (skipWhitespace l).ch = Char.ofNat 123
  · rw [if_pos hc17] at h; exact (eof_inv_aux h ht (by simp [newToken])).elim
  rw [if_neg hc17] at h
  by_cases hc18 : (skipWhitespace l).ch = Char.ofNat 125
  · rw [if_pos hc18] at h; exact (eof_inv_aux h ht (by simp [newToken])).elim
  rw [if_neg hc18] at h
  by_cases hc19 : (skipWhitespace l).ch = '<'
  · rw [if_pos hc19] at h; exact (eof_inv_aux h ht (by simp [newToken])).elim
  rw [if_neg hc19] at h
  by_cases hc20 : (skipWhitespace l).ch = '>'
  · rw [if_pos hc20] at h; exact (eof_inv_aux h ht (by simp [newToken])).elim
  rw [if_neg hc20] at h
  by_cases hc21 : (skipWhitespace l).ch = nulChar
  · rw [if_pos hc21] at h
    simp only [Option.some.injEq, Prod.mk.injEq] at h
    obtain ⟨hh1, hh2⟩ := h
    refine ⟨hh1.symm, ?_, ?_, ?_⟩
    · rw [← hh2]; simp
    · rw [← hh2]
      simp only [readChar_pos, Nat.add_sub_cancel]
      have hcc : charAt l.input (skipWhitespace l).pos = (skipWhitespace l).ch := by
        rw [Lexer.ch, skipWhitespace_input]
      rw [hcc, hc21]
    · rw [← hh2]; simp
  rw [if_neg hc21] at h
  by_cases hc22 : (skipWhitespace l).ch = '"'
  · rw [if_pos hc22] at h
    cases hrs : readString (skipWhitespace l) with
    | none => rw [hrs] at h; exact absurd h (by simp)
    | some p =>
      obtain ⟨s, l3⟩ := p
      rw [hrs] at h
      exact (eof_inv_aux h ht (by simp [newToken])).elim
  rw [if_neg hc22] at h
  by_cases hc23 : isLetter (skipWhitespace l).ch = true
  · rw [if_pos hc23] at h
    have h1 : (⟨lookUpIdent (readIdentifier (skipWhitespace l)).1,
        (readIdentifier (skipWhitespace l)).1⟩ : Token) = t :=
      congrArg Prod.fst (Option.some.inj h)
    rw [← h1] at ht
    exact absurd ht (lookUpIdent_ne_eof _)
  rw [if_neg hc23] at h
  by_cases hc24 : isDigit (skipWhitespace l).ch = true
  · rw [if_pos hc24] at h; exact (eof_inv_aux h ht (by simp [newToken])).elim
  rw [if_neg hc24] at h
  exact (eof_inv_aux h ht (by simp [newToken])).elim

theorem nextTokenN_past_end : ∀ (k : Nat) (l : Lexer), l.input.length ≤ l.pos →
    nextTokenN k l = some (⟨.EOF, []⟩, ⟨l.input, l.pos + k + 1⟩) := by
  intro k
  induction k with
  | zero =>
    intro l h
    show nextToken l = _
    rw [nextToken_past_end l h]
    rfl
  | succ k ih =>
    intro l h
    show (match nextToken l with
      | none => none
      | some (_, l2) => nextTokenN k l2) = _
    rw [nextToken_past_end l h]
    show nextTokenN k l.readChar = _
    rw [ih l.readChar (by simp only [readChar_input, readChar_pos]; omega)]
    simp only [readChar_input, readChar_pos]
    have harith : l.pos + 1 + k + 1 = l.pos + (k + 1) + 1 := by omega
    rw [harith]

theorem nextTokenFuel_spec : ∀ (fuel : Nat) (l : Lexer),
    l.input.length - l.pos < fuel →
    nextTokenFuel fuel l = some (nextToken l) := by
  intro fuel
  induction fuel with
  | zero => intro l h; omega
  | succ n ih =>
    intro l h
    rw [nextTokenFuel]
    conv_rhs => rw [nextToken.eq_def]
    by_cases hc1 : (skipWhitespace l).ch = '='
    · simp only [if_pos hc1]
      by_cases hc2 : (skipWhitespace l).peekChar = '='
      · simp only [if_pos hc2]
      · simp only [if_neg hc2]
    simp only [if_neg hc1]
    by_cases hc3 : (skipWhitespace l).ch = '!'
    · simp only [if_pos hc3]
      by_cases hc4 : (skipWhitespace l).peekChar = '='
      · simp only [if_pos hc4]
      · simp only [if_neg hc4]
    simp only [if_neg hc3]
    by_cases hc5 : (skipWhitespace l).ch = '/'
    · simp only [if_pos hc5]
      by_cases hc6 : (skipWhitespace l).peekChar = '/'
      · simp only [if_pos hc6]
        have hm := comment_measure l hc5
        apply ih
        rw [hm.2]
        omega
      · simp only [if_neg hc6]
    simp only [if_neg hc5]
    by_cases hc7 : (skipWhitespace l).ch = ';'
    · simp only [if_pos hc7]
    simp only [if_neg hc7]
    by_cases hc8 : (skipWhitespace l).ch = '('
    · simp only [if_pos hc8]
    simp only [if_neg hc8]
    by_cases hc9 : (skipWhitespace l).ch = ')'
    · simp only [if_pos hc9]
    simp only [if_neg hc9]
    by_cases hc10 : (skipWhitespace l).ch = ','
    · simp only [if_pos hc10]
    simp only [if_neg hc10]
    by_cases hc11 : (skipWhitespace l).ch = '+'
    · simp only [if_pos hc11]
    simp only [if_neg hc11]
    by_cases hc12 : (skipWhitespace l).ch = '-'
    · simp only [if_pos hc12]
    simp only [if_neg hc12]
    by_cases hc13 : (skipWhitespace l).ch = '*'
    · simp only [if_pos hc13]
    simp only [if_neg hc13]
    by_cases hc14 : (skipWhitespace l).ch = '^'
    · simp only [if_pos hc14]
    simp only [if_neg hc14]
    by_cases hc15 : (skipWhitespace l).ch = '['
    · simp only [if_pos hc15]
    simp only [if_neg hc15]
    by_cases hc16 : (skipWhitespace l).ch = ']'
    · simp only [if_pos hc16]
    simp only [if_neg hc16]
    by_cases hc17 : (skipWhitespace l).ch = Char.ofNat 123
    · simp only [if_pos hc17]
    simp only [if_neg hc17]
    by_cases hc18 : (skipWhitespace l).ch = Char.ofNat 125
    · simp only [if_pos hc18]
    simp only [if_neg hc18]
    by_cases hc19 : (skipWhitespace l).ch = '<'
    · simp only [if_pos hc19]
    simp only [if_neg hc19]
    by_cases hc20 : (skipWhitespace l).ch = '>'
    · simp only [if_pos hc20]
    simp only [if_neg hc20]
    by_cases hc21 : (skipWhitespace l).ch = nulChar
    · simp only [if_pos hc21]
    simp only [if_neg hc21]
    by_cases hc22 : (skipWhitespace l).ch = '"'
    · simp only [if_pos hc22]
      cases hrs : readString (skipWhitespace l) with
      | none => rfl
      | some p => obtain ⟨s, l3⟩ := p; rfl
    simp only [if_neg hc22]
    by_cases hc23 : isLetter (skipWhitespace l).ch = true
    · simp only [if_pos hc23]
    simp only [if_neg hc23]
    by_cases hc24 : isDigit (skipWhitespace l).ch = true
    · simp only [if_pos hc24]
    simp only [if_neg hc24]

theorem inspect_arrayFree (o : Obj) (hfree : arrayFree o = true)
    (st st2 : List (List Obj)) (d : Nat) : inspect st d o = inspect st2 d o := by
  induction o generalizing d with
  | Integer v => cases d <;> rfl
  | String s => cases d <;> rfl
  | Boolean b => cases d <;> rfl
  | Null => cases d <;> rfl
  | ReturnValue v ih =>
    cases d with
    | zero => rfl
    | succ d =>
      show inspect st d v = inspect st2 d v
      exact ih (by simpa [arrayFree] using hfree) d
  | Error m => cases d <;> rfl
  | Array r => simp [arrayFree] at hfree

/-! ## Claim theorems -/

/-- Claim C2: for every pair of Integer operands, evaluating a division
(or modulo) infix expression whose right operand is 0 yields an Error
value reporting division by zero as the evaluation result — the zero
divisor is checked before dividing, so the evaluator returns an `Error`
object (its `Type()` is `ERROR_OBJ`) instead of crashing. -/
theorem division_by_zero_error (x : Int) :
    evalIntegerInfix "/" x 0 = .Error "division by zero" ∧
    evalIntegerInfix "%" x 0 = .Error "division by zero" ∧
    objType (evalIntegerInfix "/" x 0) = ERROR_OBJ ∧
    objType (evalIntegerInfix "%" x 0) = ERROR_OBJ := by
  have h1 : evalIntegerInfix "/" x 0 = .Error "division by zero" := by
    simp [evalIntegerInfix]
  have h2 : evalIntegerInfix "%" x 0 = .Error "division by zero" := by
    simp [evalIntegerInfix]
  exact ⟨h1, h2, by rw [h1]; rfl, by rw [h2]; rfl⟩

/-- Claim C1: the builtin `push(a, v)` returns a new Array whose elements
are `a`'s elements followed by `v`; the operand array's store entry is
untouched, so `a` still holds (and renders as) its old elements.  The
rendering conjunct assumes the elements themselves hold no array
references, so that their rendering cannot observe the store. -/
theorem push_returns_new_array (st : List (List Obj)) (r : Nat) (v : Obj)
    (hr : r < st.length)
    (hfree : ∀ o ∈ arrElems st r, arrayFree o = true) :
    (pushBuiltin st r v).2 = .Array st.length ∧
    arrElems (pushBuiltin st r v).1 st.length = arrElems st r ++ [v] ∧
    arrElems (pushBuiltin st r v).1 r = arrElems st r ∧
    ∀ d, inspect (pushBuiltin st r v).1 d (.Array r) = inspect st d (.Array r) := by
  have hB : arrElems (pushBuiltin st r v).1 st.length = arrElems st r ++ [v] := by
    show (st ++ [arrElems st r ++ [v]]).getD st.length [] = arrElems st r ++ [v]
    rw [List.getD_eq_getElem?_getD, List.getElem?_append_right (le_refl _)]
    simp
  have hC : arrElems (pushBuiltin st r v).1 r = arrElems st r := by
    show (st ++ [arrElems st r ++ [v]]).getD r [] = arrElems st r
    rw [List.getD_eq_getElem?_getD, List.getElem?_append_left hr]
    rw [arrElems, List.getD_eq_getElem?_getD]
  refine ⟨rfl, hB, hC, ?_⟩
  intro d
  cases d with
  | zero => rfl
  | succ d =>
    show "[" ++ String.intercalate ", "
        ((arrElems (pushBuiltin st r v).1 r).map (inspect (pushBuiltin st r v).1 d)) ++ "]" =
      "[" ++ String.intercalate ", " ((arrElems st r).map (inspect st d)) ++ "]"
    rw [hC]
    rw [List.map_congr_left fun o ho =>
      inspect_arrayFree o (hfree o ho) (pushBuiltin st r v).1 st d]

/-- Witness for C1: pushing 2 onto the array `[1]` yields a new array
rendering as `[1, 2]` while the original still renders as `[1]`. -/
theorem push_returns_new_array_witness :
    (pushBuiltin [[Obj.Integer 1]] 0 (Obj.Integer 2)).2 = Obj.Array 1 ∧
    arrElems (pushBuiltin [[Obj.Integer 1]] 0 (Obj.Integer 2)).1 1 =
      [Obj.Integer 1, Obj.Integer 2] ∧
    arrElems (pushBuiltin [[Obj.Integer 1]] 0 (Obj.Integer 2)).1 0 = [Obj.Integer 1] ∧
    inspect (pushBuiltin [[Obj.Integer 1]] 0 (Obj.Integer 2)).1 1 (Obj.Array 0) = "[1]" ∧
    inspect [[Obj.Integer 1]] 1 (Obj.Array 0) = "[1]" ∧
    inspect (pushBuiltin [[Obj.Integer 1]] 0 (Obj.Integer 2)).1 2 (Obj.Array 1) = "[1, 2]" ∧
    objType (pushBuiltin [[Obj.Integer 1]] 0 (Obj.Integer 2)).2 = ARRAY_OBJ := by
  have hmain := push_returns_new_array [[Obj.Integer 1]] 0 (Obj.Integer 2)
    (by decide) (by decide)
  refine ⟨hmain.1, hmain.2.1, hmain.2.2.1, (hmain.2.2.2 1).trans ?_, ?_, ?_, rfl⟩
  · rfl
  · rfl
  · rfl

/-- Claim C10: every call to `NextToken` terminates.  The only
unstructured recursion is the `//` comment branch, and `skipComment`
strictly advances the read position first, so a recursion budget of
`input length + 1` always suffices: the fuel-indexed `nextTokenFuel`
never runs out of fuel and agrees with `nextToken` (whose scanning loops
`skipWhitespace`, `skipComment`, `readIdentLoop`, `readNumLoop`,
`readStringLoop` are well-founded on the remaining input). -/
theorem nextToken_terminates (l : Lexer) :
    nextTokenFuel (l.input.length + 1) l = some (nextToken l) :=
  nextTokenFuel_spec (l.input.length + 1) l (by omega)

/-- Claim C5: when the current character is `=` (resp. `!`), `NextToken`
peeks one character ahead: if the peeked character is `=` it returns the
single two-character token EQ `==` (resp. NOT_EQ `!=`) consuming both
characters, otherwise the one-character token ASSIGN `=` (resp. BANG
`!`) consuming one. -/
theorem nextToken_two_char_operators (l : Lexer) :
    (l.ch = '=' → l.peekChar = '=' →
      nextToken l = some (⟨.EQ, ['=', '=']⟩, l.readChar.readChar)) ∧
    (l.ch = '=' → l.peekChar ≠ '=' →
      nextToken l = some (⟨.ASSIGN, ['=']⟩, l.readChar)) ∧
    (l.ch = '!' → l.peekChar = '=' →
      nextToken l = some (⟨.NOT_EQ, ['!', '=']⟩, l.readChar.readChar)) ∧
    (l.ch = '!' → l.peekChar ≠ '=' →
      nextToken l = some (⟨.BANG, ['!']⟩, l.readChar)) := by
  refine ⟨?_, ?_, ?_, ?_⟩
  · intro hc hp
    have hws := skipWhitespace_eq_self l (by rw [hc]; decide)
    have heq := nextToken.eq_def l
    rw [hws] at heq
    simp only [readChar_ch] at heq
    rw [hc, hp] at heq
    simpa using heq
  · intro hc hp
    have hws := skipWhitespace_eq_self l (by rw [hc]; decide)
    have heq := nextToken.eq_def l
    rw [hws, hc] at heq
    simp [newToken, hp] at heq
    exact heq
  · intro hc hp
    have hws := skipWhitespace_eq_self l (by rw [hc]; decide)
    have heq := nextToken.eq_def l
    rw [hws] at heq
    simp only [readChar_ch] at heq
    rw [hc, hp] at heq
    simpa using heq
  · intro hc hp
    have hws := skipWhitespace_eq_self l (by rw [hc]; decide)
    have heq := nextToken.eq_def l
    rw [hws, hc] at heq
    simp [newToken, hp] at heq
    exact heq

/-- Witness for C5: the four peek cases on concrete two-character
inputs. -/
theorem nextToken_two_char_operators_witness :
    nextToken ⟨['=', '='], 0⟩ = some (⟨.EQ, ['=', '=']⟩, ⟨['=', '='], 2⟩) ∧
    nextToken ⟨['=', 'a'], 0⟩ = some (⟨.ASSIGN, ['=']⟩, ⟨['=', 'a'], 1⟩) ∧
    nextToken ⟨['!', '='], 0⟩ = some (⟨.NOT_EQ, ['!', '=']⟩, ⟨['!', '='], 2⟩) ∧
    nextToken ⟨['!', 'a'], 0⟩ = some (⟨.BANG, ['!']⟩, ⟨['!', 'a'], 1⟩) := by
  refine ⟨?_, ?_, ?_, ?_⟩
  · exact (nextToken_two_char_operators ⟨['=', '='], 0⟩).1 (by decide) (by decide)
  · exact (nextToken_two_char_operators ⟨['=', 'a'], 0⟩).2.1 (by decide) (by decide)
  · exact (nextToken_two_char_operators ⟨['!', '='], 0⟩).2.2.1 (by decide) (by decide)
  · exact (nextToken_two_char_operators ⟨['!', 'a'], 0⟩).2.2.2 (by decide) (by decide)

/-- Claim C6: on `//`, `NextToken` discards everything up to the end of
the line (all skipped characters are neither newline nor carriage
return, and the scan stops at a newline, carriage return or end of
input) and recursively returns the next real token, so no comment token
is ever emitted; a `/` not followed by `/` is the SLASH operator
token. -/
theorem nextToken_line_comment (l : Lexer) :
    (l.ch = '/' → l.peekChar = '/' →
      nextToken l = nextToken (skipComment l) ∧
      (skipComment l).input = l.input ∧ l.pos ≤ (skipComment l).pos ∧
      ((skipComment l).ch = '\n' ∨ (skipComment l).ch = '\r' ∨
        (skipComment l).ch = nulChar) ∧
      (∀ i, l.pos ≤ i → i < (skipComment l).pos →
        charAt l.input i ≠ '\n' ∧ charAt l.input i ≠ '\r')) ∧
    (l.ch = '/' → l.peekChar ≠ '/' →
      nextToken l = some (⟨.SLASH, ['/']⟩, l.readChar)) := by
  constructor
  · intro hc hp
    have hws := skipWhitespace_eq_self l (by rw [hc]; decide)
    have heq := nextToken.eq_def l
    rw [hws, hc, hp] at heq
    simp at heq
    refine ⟨heq, skipComment_input l, skipComment_pos_le l, skipComment_stop l, ?_⟩
    intro i h1 h2
    have h3 := skipComment_interval l i h1 h2
    exact ⟨h3.1, h3.2.1⟩
  · intro hc hp
    have hws := skipWhitespace_eq_self l (by rw [hc]; decide)
    have heq := nextToken.eq_def l
    rw [hws, hc] at heq
    simp [newToken, hp] at heq
    exact heq

/-- Witness for C6: a comment input recurses past the comment to the
`+` token after the newline; a lone `/` is SLASH. -/
theorem nextToken_line_comment_witness :
    nextToken ⟨"//a\n+".data, 0⟩ = nextToken (skipComment ⟨"//a\n+".data, 0⟩) ∧
    nextToken ⟨"//a\n+".data, 0⟩ = some (⟨.PLUS, ['+']⟩, ⟨"//a\n+".data, 5⟩) ∧
    nextToken ⟨"/a".data, 0⟩ = some (⟨.SLASH, ['/']⟩, ⟨"/a".data, 1⟩) := by
  refine ⟨((nextToken_line_comment ⟨"//a\n+".data, 0⟩).1 (by decide) (by decide)).1,
    ?_, ?_⟩
  · simp [nextToken, skipComment, skipWhitespace, Lexer.ch, Lexer.peekChar, charAt,
      Lexer.readChar, newToken, isLetter, isDigit, nulChar]
  · exact (nextToken_line_comment ⟨"/a".data, 0⟩).2 (by decide) (by decide)

theorem isLetter_ne (c c2 : Char) (h : isLetter c = true)
    (h2 : isLetter c2 = false) : c ≠ c2 := by
  intro he
  rw [he, h2] at h
  simp at h

/-- Claim C7: at a letter, `NextToken` captures the maximal run of
letters (`takeWhile`) as the literal, then consults the keyword table on
the full literal: the token kind is the keyword's kind on a hit and
IDENT otherwise. -/
theorem nextToken_identifier_keyword (l : Lexer) (h : isLetter l.ch = true) :
    nextToken l = some (⟨lookUpIdent ((l.input.drop l.pos).takeWhile isLetter),
        (l.input.drop l.pos).takeWhile isLetter⟩,
      ⟨l.input, l.pos + ((l.input.drop l.pos).takeWhile isLetter).length⟩) ∧
    lookUpIdent "fn".data = .FUNCTION ∧ lookUpIdent "let".data = .LET ∧
    lookUpIdent "true".data = .TRUE ∧ lookUpIdent "false".data = .FALSE ∧
    lookUpIdent "if".data = .IF ∧ lookUpIdent "else".data = .ELSE ∧
    lookUpIdent "return".data = .RETURN ∧
    (∀ s : List Char, s ≠ "fn".data → s ≠ "let".data → s ≠ "true".data →
      s ≠ "false".data → s ≠ "if".data → s ≠ "else".data → s ≠ "return".data →
      lookUpIdent s = .IDENT) := by
  have hws := skipWhitespace_eq_self l (by
    intro hx
    rcases hx with h1 | h1 | h1 | h1 <;> rw [h1] at h <;> exact absurd h (by decide))
  have hne : ∀ c2 : Char, isLetter c2 = false → l.ch ≠ c2 :=
    fun c2 h2 => isLetter_ne _ _ h h2
  have heq := nextToken.eq_def l
  rw [hws] at heq
  simp only [hne '=' (by decide), hne '!' (by decide), hne '/' (by decide),
    hne ';' (by decide), hne '(' (by decide), hne ')' (by decide),
    hne ',' (by decide), hne '+' (by decide), hne '-' (by decide),
    hne '*' (by decide), hne '^' (by decide), hne '[' (by decide),
    hne ']' (by decide), hne (Char.ofNat 123) (by decide),
    hne (Char.ofNat 125) (by decide), hne '<' (by decide), hne '>' (by decide),
    hne nulChar (by decide), hne '"' (by decide), h,
    if_true, if_false, ite_false, ite_true] at heq
  rw [readIdentifier_spec] at heq
  refine ⟨?_, rfl, rfl, rfl, rfl, rfl, rfl, rfl, ?_⟩
  · simpa using heq
  · intro s h1 h2 h3 h4 h5 h6 h7
    rw [lookUpIdent]
    simp [h1, h2, h3, h4, h5, h6, h7]

/-- Witness for C7: `fn(` lexes to the keyword token FUNCTION `fn`
(maximal run stops at `(`), while `fnx` lexes to the identifier token
IDENT `fnx` (the keyword check sees the full run, not a prefix). -/
theorem nextToken_identifier_keyword_witness :
    nextToken ⟨"fn(".data, 0⟩ = some (⟨.FUNCTION, "fn".data⟩, ⟨"fn(".data, 2⟩) ∧
    nextToken ⟨"fnx".data, 0⟩ = some (⟨.IDENT, "fnx".data⟩, ⟨"fnx".data, 3⟩) := by
  constructor
  · have h1 := (nextToken_identifier_keyword ⟨"fn(".data, 0⟩ (by decide)).1
    exact h1.trans (by decide)
  · have h1 := (nextToken_identifier_keyword ⟨"fnx".data, 0⟩ (by decide)).1
    exact h1.trans (by decide)

/-- Claim C4 (amended): every character that is not whitespace, not a
recognized operator/delimiter/bracket, not a quote, not a letter, not a
digit — and not the NUL character 0x00, which the lexer treats as its
end-of-input sentinel — yields an ILLEGAL token carrying that character
as its literal, and the call returns normally with the position advanced
by one, so lexing continues. -/
theorem nextToken_illegal_char (l : Lexer)
    (hws : ¬(l.ch = ' ' ∨ l.ch = '\t' ∨ l.ch = '\n' ∨ l.ch = '\r'))
    (h1 : l.ch ≠ '=') (h2 : l.ch ≠ '!') (h3 : l.ch ≠ '/') (h4 : l.ch ≠ ';')
    (h5 : l.ch ≠ '(') (h6 : l.ch ≠ ')') (h7 : l.ch ≠ ',') (h8 : l.ch ≠ '+')
    (h9 : l.ch ≠ '-') (h10 : l.ch ≠ '*') (h11 : l.ch ≠ '^') (h12 : l.ch ≠ '[')
    (h13 : l.ch ≠ ']') (h14 : l.ch ≠ Char.ofNat 123) (h15 : l.ch ≠ Char.ofNat 125)
    (h16 : l.ch ≠ '<') (h17 : l.ch ≠ '>') (h18 : l.ch ≠ nulChar) (h19 : l.ch ≠ '"')
    (h20 : isLetter l.ch = false) (h21 : isDigit l.ch = false) :
    nextToken l = some (⟨.ILLEGAL, [l.ch]⟩, l.readChar) := by
  have hws2 := skipWhitespace_eq_self l hws
  have heq := nextToken.eq_def l
  rw [hws2] at heq
  simp [newToken, h1, h2, h3, h4, h5, h6, h7, h8, h9, h10, h11, h12, h13, h14,
    h15, h16, h17, h18, h19, h20, h21] at heq
  exact heq

/-- Witness for C4: the unrecognized character `$` yields an ILLEGAL
token with literal `$`, and the next call proceeds normally (here to
EOF). -/
theorem nextToken_illegal_char_witness :
    nextToken ⟨['$'], 0⟩ = some (⟨.ILLEGAL, ['$']⟩, ⟨['$'], 1⟩) ∧
    nextToken ⟨['$'], 1⟩ = some (⟨.EOF, []⟩, ⟨['$'], 2⟩) := by
  constructor
  · exact nextToken_illegal_char ⟨['$'], 0⟩ (by decide) (by decide) (by decide)
      (by decide) (by decide) (by decide) (by decide) (by decide) (by decide)
      (by decide) (by decide) (by decide) (by decide) (by decide) (by decide)
      (by decide) (by decide) (by decide) (by decide) (by decide) (by decide)
      (by decide)
  · simp [nextToken, skipWhitespace, Lexer.ch, Lexer.peekChar, charAt,
      Lexer.readChar, newToken, isLetter, isDigit, nulChar]

/-- Counterexample for C4 as frozen: the NUL character 0x00 in the middle
of the input satisfies every condition of the claim (not whitespace, not
an operator, delimiter, bracket or quote, not a letter, not a digit),
yet `NextToken` returns the EOF token instead of an ILLEGAL token
carrying NUL. -/
theorem nul_not_illegal_counterexample :
    isLetter nulChar = false ∧ isDigit nulChar = false ∧
    ¬(nulChar = ' ' ∨ nulChar = '\t' ∨ nulChar = '\n' ∨ nulChar = '\r') ∧
    nulChar ∉ ['=', '!', '/', ';', '(', ')', ',', '+', '-', '*', '^', '[', ']',
      Char.ofNat 123, Char.ofNat 125, '<', '>', '"'] ∧
    nextToken ⟨[nulChar, '$'], 0⟩ = some (⟨.EOF, []⟩, ⟨[nulChar, '$'], 1⟩) ∧
    TokenType.EOF ≠ TokenType.ILLEGAL := by
  refine ⟨by decide, by decide, by decide, by decide, ?_, by decide⟩
  simp [nextToken, skipWhitespace, Lexer.ch, Lexer.peekChar, charAt,
    Lexer.readChar, newToken, isLetter, isDigit, nulChar]

/-- Claim C3: with the lexer at an opening `"` and no closing `"`
anywhere in the rest of the input, `NextToken` reaches the fatal
`log.Fatalf` abort in `readString` (modelled as `none`), not a
recoverable illegal token. -/
theorem unterminated_string_fatal (l : Lexer)
    (hq : l.ch = '"')
    (hno : ∀ c ∈ l.input.drop (l.pos + 1), c ≠ '"') :
    nextToken l = none := by
  have hws := skipWhitespace_eq_self l (by rw [hq]; decide)
  have heq := nextToken.eq_def l
  rw [hws, hq] at heq
  simp at heq
  have hrs : readString l = none :=
    readStringLoop_none l.input.length l [] (by omega) hno
  rw [hrs] at heq
  exact heq

/-- Witness for C3: the input `"ab` (opening quote, never closed) makes
`NextToken` hit the fatal abort. -/
theorem unterminated_string_fatal_witness :
    nextToken ⟨['"', 'a', 'b'], 0⟩ = none :=
  unterminated_string_fatal ⟨['"', 'a', 'b'], 0⟩ (by decide) (by decide)

/-- Claim C8 (amended): for every terminated string literal none of whose
scanned characters (up to and including the closing quote) is the NUL
character 0x00, `NextToken` returns a STRING token whose literal is the
text between the delimiting quotes with each backslash-escaped quote
`\"` replaced by a literal `"`; the delimiters are not part of the
literal and the lexer ends positioned past the closing quote. -/
theorem nextToken_string_literal (l : Lexer) (content : List Char) (n : Nat)
    (hq : l.ch = '"')
    (hspec : stringLiteralSpec (l.input.drop (l.pos + 1)) = some (content, n))
    (hnonul : nulChar ∉ (l.input.drop (l.pos + 1)).take n) :
    nextToken l = some (⟨.STRING, content⟩, ⟨l.input, l.pos + n + 1⟩) := by
  have hws := skipWhitespace_eq_self l (by rw [hq]; decide)
  have heq := nextToken.eq_def l
  rw [hws, hq] at heq
  simp at heq
  have hrs : readString l = some ([] ++ content, ⟨l.input, l.pos + n⟩) :=
    readStringLoop_spec n l [] content hspec hnonul
  rw [hrs] at heq
  simpa [Lexer.readChar] using heq

/-- Witness for C8: the input `"a\"b"` lexes to a STRING token with
literal `a"b` and the position past the closing quote. -/
theorem nextToken_string_literal_witness :
    nextToken ⟨['"', 'a', '\\', '"', 'b', '"'], 0⟩ =
      some (⟨.STRING, ['a', '"', 'b']⟩, ⟨['"', 'a', '\\', '"', 'b', '"'], 6⟩) := by
  have h1 := nextToken_string_literal ⟨['"', 'a', '\\', '"', 'b', '"'], 0⟩
    ['a', '"', 'b'] 5 (by decide) (by simp [stringLiteralSpec]) (by decide)
  exact h1

/-- Counterexample for C8 as frozen: the string literal `"<NUL>"` is
terminated (the claim-side scanner finds the closing quote and content
`[NUL]`), yet `NextToken` hits the fatal abort (`none`) instead of
returning a STRING token, because `readString` checks the NUL byte
before the closing quote is reached. -/
theorem string_nul_aborts_counterexample :
    stringLiteralSpec [nulChar, '"'] = some ([nulChar], 2) ∧
    nextToken ⟨['"', nulChar, '"'], 0⟩ = none := by
  constructor
  · simp [stringLiteralSpec, nulChar]
  · simp [nextToken, skipWhitespace, readString, readStringLoop, Lexer.ch,
      Lexer.peekChar, charAt, Lexer.readChar, isLetter, isDigit, nulChar]

/-- Claim C9 (amended): for every input containing no NUL byte, once
`NextToken` has returned the end-of-input token (kind EOF, empty
literal), every subsequent call returns the same EOF token: reading past
the end of input pins the current character at 0. -/
theorem nextToken_eof_absorbing (l : Lexer) (t : Token) (l2 : Lexer)
    (hnonul : nulChar ∉ l.input)
    (h : nextToken l = some (t, l2)) (ht : t.type = .EOF) :
    t = ⟨.EOF, []⟩ ∧
    ∀ k, nextTokenN k l2 = some (⟨.EOF, []⟩, ⟨l2.input, l2.pos + k + 1⟩) := by
  obtain ⟨hteq, hin, hnul2, hpos⟩ :=
    nextToken_eof_inv (l.input.length - l.pos) l t l2 le_rfl h ht
  have hge : l.input.length ≤ l2.pos - 1 := by
    by_contra hlt
    push_neg at hlt
    have hmem := charAt_mem l.input (l2.pos - 1) hlt
    rw [hnul2] at hmem
    exact hnonul hmem
  have hge2 : l2.input.length ≤ l2.pos := by rw [hin]; omega
  exact ⟨hteq, fun k => nextTokenN_past_end k l2 hge2⟩

/-- Witness for C9: after the lexer of input `+` has consumed the plus
sign, the next call returns EOF, and each of the following calls keeps
returning the same EOF token. -/
theorem nextToken_eof_absorbing_witness :
    nextToken ⟨['+'], 1⟩ = some (⟨.EOF, []⟩, ⟨['+'], 2⟩) ∧
    nextTokenN 0 ⟨['+'], 2⟩ = some (⟨.EOF, []⟩, ⟨['+'], 3⟩) ∧
    nextTokenN 5 ⟨['+'], 2⟩ = some (⟨.EOF, []⟩, ⟨['+'], 8⟩) := by
  have h0 : nextToken ⟨['+'], 1⟩ = some (⟨TokenType.EOF, []⟩, ⟨['+'], 2⟩) := by
    simp [nextToken, skipWhitespace, Lexer.ch, Lexer.peekChar, charAt,
      Lexer.readChar, newToken, isLetter, isDigit, nulChar]
  have hmain := nextToken_eof_absorbing ⟨['+'], 1⟩ ⟨TokenType.EOF, []⟩ ⟨['+'], 2⟩
    (by decide) h0 rfl
  exact ⟨h0, hmain.2 0, hmain.2 5⟩

/-- Counterexample for C9 as frozen: with a NUL byte in the middle of the
input, `NextToken` returns the EOF token at the NUL and the very next
call returns a PLUS token — EOF is not absorbing for arbitrary input
strings. -/
theorem eof_not_absorbing_counterexample :
    nextToken ⟨[nulChar, '+'], 0⟩ = some (⟨.EOF, []⟩, ⟨[nulChar, '+'], 1⟩) ∧
    nextToken ⟨[nulChar, '+'], 1⟩ = some (⟨.PLUS, ['+']⟩, ⟨[nulChar, '+'], 2⟩) ∧
    TokenType.PLUS ≠ TokenType.EOF := by
  refine ⟨?_, ?_, by decide⟩ <;>
    simp [nextToken, skipWhitespace, Lexer.ch, Lexer.peekChar, charAt,
      Lexer.readChar, newToken, isLetter, isDigit, nulChar]
